import Mathlib

/-!
Shallow embedding of `binary_io.py`: a compact binary encoder/decoder for flat
(non-nested) data, driven by a textual type-descriptor grammar.

Modelling conventions:
* A byte stream is a `List Nat` (each entry a byte value).
* `struct.pack`/`struct.unpack` are embedded with the native sizes and byte
  order of CPython on the 64-bit little-endian platform the module's own
  self-test requires (it packs 2^63-1 with format 'L', which needs an 8-byte
  native long): 'b'/'B' are 1 byte, 'i'/'I' are 4 bytes, 'l'/'L' are 8 bytes,
  all little-endian.  Out-of-range values raise `struct.error`.
* Text codecs (`str.encode` / `bytes.decode`, Python standard library) are
  modelled abstractly as a pair of partial functions between code-point lists
  and byte lists, looked up by encoding name in a `CodecEnv`.
* Values are flat, mirroring the library's scope: a scalar (int, str, bytes),
  `None`, or a single-level container of scalars.  Python sets and dicts are
  modelled by their iteration order: a set is a duplicate-free list of members,
  a dict an association list with duplicate-free keys.
* A writer returns the bytes it emitted to the stream together with either the
  returned byte count or the exception raised (bytes emitted before the
  exception are kept, mirroring partial writes on the underlying stream).
* A reader takes the stream and returns the decoded value and the remaining
  stream, or the exception raised.
-/

namespace BinaryIo

/-- The exceptions the codec can raise.  The source raises `ValueError` with
distinguishing messages; the spec's taxonomy names them: `unsupportedType`
('type {} unsupported'), `lengthOverflow` ('not a short string/bytes
sequence'), `duplicateKey` ('duplicate key {}'), plus `struct.error` from
`struct.pack`/`struct.unpack`, `UnicodeDecodeError`/`UnicodeEncodeError` from
the text codec, and `TypeError` for operations on values of the wrong shape. -/
inductive Err where
  | unsupportedType (tag : String)
  | lengthOverflow
  | duplicateKey
  | decodeError
  | encodeError
  | structError
  | typeError
  deriving DecidableEq, Repr

/-- A Python scalar value: an int, a str (list of Unicode code points), or a
bytes object (list of byte values). -/
inductive Scalar where
  | num (n : Int)
  | str (s : List Nat)
  | byt (b : List Nat)
  deriving DecidableEq, Repr

/-- A Python value in the library's flat domain: `None`, a scalar, a list of
scalars, a set of scalars (as its iteration order, a duplicate-free list), or
a dict of scalars (as its insertion-ordered association list). -/
inductive Val where
  | vnone
  | scal (s : Scalar)
  | vvec (xs : List Scalar)
  | vset (xs : List Scalar)
  | vmap (xs : List (Scalar × Scalar))
  deriving DecidableEq, Repr

/-- A text codec: `enc` is `str.encode` (code points to bytes, `none` on
`UnicodeEncodeError`), `dec` is `bytes.decode` (bytes to code points, `none`
on `UnicodeDecodeError`). -/
structure TextCodec where
  enc : List Nat → Option (List Nat)
  dec : List Nat → Option (List Nat)

/-- The codec registry: Python's `codecs` lookup, by encoding name. -/
abbrev CodecEnv := String → TextCodec

/-- A codec is lossless when decoding inverts successful encoding, as the
standard text encodings do. -/
def losslessCodec (c : TextCodec) : Prop :=
  ∀ s bs, c.enc s = some bs → c.dec bs = some s

/-- Every codec the registry returns is lossless. -/
def losslessEnv (env : CodecEnv) : Prop := ∀ name, losslessCodec (env name)

/-- Little-endian encoding of `n` on `w` bytes (the byte layout produced by
`struct.pack` for the supported formats on the modelled platform). -/
def natToLE : Nat → Nat → List Nat
  | 0, _ => []
  | w + 1, n => n % 256 :: natToLE w (n / 256)

/-- Little-endian decoding of a byte list back to a natural number. -/
def leToNat : List Nat → Nat
  | [] => 0
  | b :: bs => b + 256 * leToNat bs

/-- NUMERIC_FMT: the supported `struct` format characters. -/
def NUMERIC_FMT : List String := ["b", "B", "i", "I", "l", "L"]

/-- STRING_TYPES. -/
def STRING_TYPES : List String := ["str", "sstr"]

/-- BYTES_TYPES. -/
def BYTES_TYPES : List String := ["byt", "sbyt"]

/-- SCALAR_TYPES: union of the numeric, string and bytes tags. -/
def SCALAR_TYPES : List String := NUMERIC_FMT ++ STRING_TYPES ++ BYTES_TYPES

/-- DEFAULT_ENC. -/
def DEFAULT_ENC : String := "utf-8"

/-- NUMBER_SIZES: `len(struct.pack(fmt, 42))` per format, i.e. the native
sizes on the modelled 64-bit platform.  Unsupported formats get size 0 (the
source never looks them up: `read_number` checks membership in NUMERIC_FMT
first and `write_number` is only reached with supported formats). -/
def NUMBER_SIZES (fmt : String) : Nat :=
  if fmt = "b" then 1
  else if fmt = "B" then 1
  else if fmt = "i" then 4
  else if fmt = "I" then 4
  else if fmt = "l" then 8
  else if fmt = "L" then 8
  else 0

/-- Whether a numeric format is signed ('b', 'i', 'l'). -/
def signedFmt (fmt : String) : Bool :=
  fmt = "b" || fmt = "i" || fmt = "l"

/-- The range check `struct.pack` performs for a format. -/
def packOk (fmt : String) (v : Int) : Bool :=
  if signedFmt fmt then
    decide (-(2 ^ (8 * NUMBER_SIZES fmt - 1)) ≤ v ∧ v < 2 ^ (8 * NUMBER_SIZES fmt - 1))
  else
    decide (0 ≤ v ∧ v < 2 ^ (8 * NUMBER_SIZES fmt))

/-- struct.pack: fixed-width little-endian bytes of `v`, or `struct.error`
when the format is unsupported or the value out of range. -/
def struct_pack (fmt : String) (v : Int) : Except Err (List Nat) :=
  if NUMBER_SIZES fmt = 0 then .error .structError
  else if packOk fmt v then
    .ok (natToLE (NUMBER_SIZES fmt) ((v % ((2 : Int) ^ (8 * NUMBER_SIZES fmt))).toNat))
  else .error .structError

/-- struct.unpack on a buffer of the format's exact size: reconstruct the
unsigned value, then reinterpret the top bit for signed formats. -/
def struct_unpack (fmt : String) (bs : List Nat) : Int :=
  if signedFmt fmt && decide ((2 : Int) ^ (8 * NUMBER_SIZES fmt - 1) ≤ (leToNat bs : Int)) then
    (leToNat bs : Int) - 2 ^ (8 * NUMBER_SIZES fmt)
  else (leToNat bs : Int)

/-- A parsed descriptor component: `(typ, enc)` as produced by
`parse_type_descr`. -/
abbrev ItemType := String × Option String

/-- LONG_TYPE: the wide number/length format. -/
def LONG_TYPE : ItemType := ("I", none)

/-- SHORT_TYPE: the one-byte number/length format. -/
def SHORT_TYPE : ItemType := ("B", none)

/-- Decidable equality for `Except` results. -/
def exceptDecEq {ε α : Type} [DecidableEq ε] [DecidableEq α] : DecidableEq (Except ε α)
  | .error a, .error b => if h : a = b then .isTrue (by rw [h]) else .isFalse (by simp [h])
  | .error _, .ok _ => .isFalse (by simp)
  | .ok _, .error _ => .isFalse (by simp)
  | .ok a, .ok b => if h : a = b then .isTrue (by rw [h]) else .isFalse (by simp [h])

instance {ε α : Type} [DecidableEq ε] [DecidableEq α] : DecidableEq (Except ε α) := exceptDecEq

/-- Result of a write call: the bytes emitted to the underlying stream, and
either the returned byte count or the exception raised after emitting them. -/
structure WOut where
  out : List Nat
  res : Except Err Nat
  deriving DecidableEq, Repr

/-- A write that emitted `bs` and returned its length (as `file.write` does). -/
def wOk (bs : List Nat) : WOut := ⟨bs, .ok bs.length⟩

/-- A write that raised before emitting anything. -/
def wErr (e : Err) : WOut := ⟨[], .error e⟩

/-- Sequencing of two writes: the second runs only if the first returned; byte
counts add up; bytes already emitted stay on the stream when the second
raises. -/
def wseq (a b : WOut) : WOut :=
  match a.res with
  | .error e => ⟨a.out, .error e⟩
  | .ok n =>
    match b.res with
    | .error e => ⟨a.out ++ b.out, .error e⟩
    | .ok m => ⟨a.out ++ b.out, .ok (n + m)⟩

/-- Result of a read call: the decoded value and the rest of the stream, or
the exception raised. -/
abbrev RRes (α : Type) := Except Err (α × List Nat)

/-- read_number: check the format is numeric, consume its size in bytes
(`struct.error` if the stream is too short for `struct.unpack`), unpack. -/
def read_number (t : ItemType) (s : List Nat) : RRes Int :=
  let fmt := t.1
  if fmt ∈ NUMERIC_FMT then
    let w := NUMBER_SIZES fmt
    if w ≤ s.length then .ok (struct_unpack fmt (s.take w), s.drop w)
    else .error .structError
  else .error (.unsupportedType fmt)

/-- write_number: emit `struct.pack(fmt, number)`. -/
def write_number (number : Int) (t : ItemType) : WOut :=
  match struct_pack t.1 number with
  | .ok bs => wOk bs
  | .error e => wErr e

/-- _fmt_to_len_type: long strings and bytes use the wide length format,
everything else the one-byte format. -/
def fmt_to_len_type (fmt : String) : ItemType :=
  if fmt = "byt" ∨ fmt = "str" then LONG_TYPE else SHORT_TYPE

/-- _get_len_and_fmt, applied to the length of the sequence: reject a payload
over 255 bytes when the length format is the one-byte 'B'. -/
def get_len_and_fmt (length : Nat) (fmt : String) : Except Err (Nat × ItemType) :=
  if (fmt_to_len_type fmt).1 = "B" ∧ 255 < length then .error .lengthOverflow
  else .ok (length, fmt_to_len_type fmt)

/-- read_bytes: read the length, then read that many raw bytes (like
`file.read`, fewer are returned if the stream ends early). -/
def read_bytes (t : ItemType) (s : List Nat) : RRes (List Nat) :=
  match read_number (fmt_to_len_type t.1) s with
  | .error e => .error e
  | .ok (len, s1) => .ok (s1.take len.toNat, s1.drop len.toNat)

/-- write_bytes: length check, length prefix, then the raw bytes. -/
def write_bytes (bs : List Nat) (t : ItemType) : WOut :=
  match get_len_and_fmt bs.length t.1 with
  | .error e => wErr e
  | .ok (len, nt) => wseq (write_number len nt) (wOk bs)

/-- Resolution of the encoding hint in _decode_string/_encode_string: a falsy
hint (absent or the empty string) falls back to DEFAULT_ENC. -/
def resolve_enc (e : Option String) : String :=
  match e with
  | none => DEFAULT_ENC
  | some n => if n = "" then DEFAULT_ENC else n

/-- _decode_string: resolve the hint, decode; decoding failure raises. -/
def decode_string (env : CodecEnv) (bs : List Nat) (e : Option String) : Except Err (List Nat) :=
  match (env (resolve_enc e)).dec bs with
  | some s => .ok s
  | none => .error .decodeError

/-- _encode_string: resolve the hint, encode; encoding failure raises. -/
def encode_string (env : CodecEnv) (str : List Nat) (e : Option String) : Except Err (List Nat) :=
  match (env (resolve_enc e)).enc str with
  | some bs => .ok bs
  | none => .error .encodeError

/-- read_string: read the length, read that many bytes, decode them. -/
def read_string (env : CodecEnv) (t : ItemType) (s : List Nat) : RRes (List Nat) :=
  match read_number (fmt_to_len_type t.1) s with
  | .error e => .error e
  | .ok (len, s1) =>
    match decode_string env (s1.take len.toNat) t.2 with
    | .ok cs => .ok (cs, s1.drop len.toNat)
    | .error e => .error e

/-- write_string: encode the text, check the encoded length, emit the length
prefix and then the encoded bytes. -/
def write_string (env : CodecEnv) (str : List Nat) (t : ItemType) : WOut :=
  match encode_string env str t.2 with
  | .error e => wErr e
  | .ok bs =>
    match get_len_and_fmt bs.length t.1 with
    | .error e => wErr e
    | .ok (len, nt) => wseq (write_number len nt) (wOk bs)

/-- read_scalar: dispatch on the tag class; unknown tags raise. -/
def read_scalar (env : CodecEnv) (t : ItemType) (s : List Nat) : RRes Scalar :=
  if t.1 ∈ NUMERIC_FMT then
    match read_number t s with
    | .ok (n, s1) => .ok (.num n, s1)
    | .error e => .error e
  else if t.1 ∈ STRING_TYPES then
    match read_string env t s with
    | .ok (cs, s1) => .ok (.str cs, s1)
    | .error e => .error e
  else if t.1 ∈ BYTES_TYPES then
    match read_bytes t s with
    | .ok (bs, s1) => .ok (.byt bs, s1)
    | .error e => .error e
  else .error (.unsupportedType t.1)

/-- write_scalar on a scalar value: dispatch on the tag class; a value of the
wrong shape makes the underlying primitive raise (`struct.error` for
`struct.pack` on a non-int, `TypeError` for `bytes(x, encoding=...)` on a
non-str and for writing a non-bytes payload); unknown tags raise. -/
def write_scalar (env : CodecEnv) (item : Scalar) (t : ItemType) : WOut :=
  if t.1 ∈ NUMERIC_FMT then
    match item with
    | .num n => write_number n t
    | _ => wErr .structError
  else if t.1 ∈ STRING_TYPES then
    match item with
    | .str cs => write_string env cs t
    | _ => wErr .typeError
  else if t.1 ∈ BYTES_TYPES then
    match item with
    | .byt bs => write_bytes bs t
    | _ => wErr .typeError
  else wErr (.unsupportedType t.1)

/-- Rank of a scalar's type for Python's comparison: values of the same type
compare by value.  Values of different types do not compare in Python
(`TypeError`); the rank order here extends the comparison totally, which the
codec never observes because a sorted collection's members all have the type
its single member descriptor decodes to. -/
def rank : Scalar → Nat
  | .num _ => 0
  | .str _ => 1
  | .byt _ => 2

/-- Lexicographic order on code-point/byte lists: Python's `<=` on `str` and
on `bytes`. -/
def lexLe : List Nat → List Nat → Bool
  | [], _ => true
  | _ :: _, [] => false
  | a :: as, b :: bs => if a < b then true else if b < a then false else lexLe as bs

/-- Python's `<=` on scalar values of the same type (ints numerically, str
and bytes lexicographically). -/
def scalLe (a b : Scalar) : Bool :=
  match a, b with
  | .num x, .num y => decide (x ≤ y)
  | .str x, .str y => lexLe x y
  | .byt x, .byt y => lexLe x y
  | _, _ => decide (rank a ≤ rank b)

/-- Python's `<=` on (key, value) pairs: lexicographic, comparing values only
when the keys compare equal both ways. -/
def pairLe (p q : Scalar × Scalar) : Bool :=
  if scalLe p.1 q.1 then (if scalLe q.1 p.1 then scalLe p.2 q.2 else true) else false

/-- Ordered insertion used by the model of Python's `sorted`. -/
def insertLe {α : Type} (le : α → α → Bool) (a : α) : List α → List α
  | [] => [a]
  | b :: bs => if le a b then a :: b :: bs else b :: insertLe le a bs

/-- Python's `sorted`: the `le`-sorted permutation of the input (insertion
sort; any stable sort has the same result on the orders used here). -/
def pySorted {α : Type} (le : α → α → Bool) : List α → List α
  | [] => []
  | a :: as => insertLe le a (pySorted le as)

/-- The loop of read_vector: read `n` scalars in order. -/
def read_scalar_list (env : CodecEnv) (t : ItemType) : Nat → List Nat → RRes (List Scalar)
  | 0, s => .ok ([], s)
  | n + 1, s =>
    match read_scalar env t s with
    | .error e => .error e
    | .ok (v, s1) =>
      match read_scalar_list env t n s1 with
      | .error e => .error e
      | .ok (vs, s2) => .ok (v :: vs, s2)

/-- The loop of write_vector / write_set: write the elements in order,
accumulating the byte count. -/
def write_scalar_list (env : CodecEnv) (t : ItemType) : List Scalar → WOut
  | [] => wOk []
  | v :: vs => wseq (write_scalar env v t) (write_scalar_list env t vs)

/-- read_vector: read the wide count, then that many scalars in order. -/
def read_vector (env : CodecEnv) (et : ItemType) (s : List Nat) : RRes Val :=
  match read_number LONG_TYPE s with
  | .error e => .error e
  | .ok (l, s1) =>
    match read_scalar_list env et l.toNat s1 with
    | .error e => .error e
    | .ok (vs, s2) => .ok (.vvec vs, s2)

/-- Iterating a Python value as write_vector's `for element in vector` does:
a list yields its elements, a set its members, a dict its keys, a str its
characters (one-character strings), a bytes its byte values (ints); `None`
and numbers are not iterable (`TypeError`). -/
def asIter : Val → Except Err (List Scalar)
  | .vvec xs => .ok xs
  | .vset xs => .ok xs
  | .vmap al => .ok (al.map Prod.fst)
  | .scal (.str cs) => .ok (cs.map (fun c => .str [c]))
  | .scal (.byt bs) => .ok (bs.map (fun b => .num b))
  | _ => .error .typeError

/-- write_vector: a `None` vector is replaced by the empty list; emit the wide
count, then each element in original order. -/
def write_vector (env : CodecEnv) (vector : Val) (et : ItemType) : WOut :=
  match (if vector = .vnone then .ok [] else asIter vector) with
  | .error e => wErr e
  | .ok xs => wseq (write_number xs.length LONG_TYPE) (write_scalar_list env et xs)

/-- Python's `set.add` on the iteration-order model of a set: a member already
present is dropped, a new one appends. -/
def set_insert (acc : List Scalar) (v : Scalar) : List Scalar :=
  if v ∈ acc then acc else acc ++ [v]

/-- The loop of read_set: read `n` scalars, adding each to the set. -/
def read_set_list (env : CodecEnv) (t : ItemType) : Nat → List Scalar → List Nat → RRes (List Scalar)
  | 0, acc, s => .ok (acc, s)
  | n + 1, acc, s =>
    match read_scalar env t s with
    | .error e => .error e
    | .ok (v, s1) => read_set_list env t n (set_insert acc v) s1

/-- read_set: read the wide count, then that many members into a set. -/
def read_set (env : CodecEnv) (mt : ItemType) (s : List Nat) : RRes Val :=
  match read_number LONG_TYPE s with
  | .error e => .error e
  | .ok (l, s1) =>
    match read_set_list env mt l.toNat [] s1 with
    | .error e => .error e
    | .ok (ms, s2) => .ok (.vset ms, s2)

/-- write_set: emit the wide member count, then the members via `sorted`. -/
def write_set (env : CodecEnv) (st : Val) (mt : ItemType) : WOut :=
  match asIter st with
  | .error e => wErr e
  | .ok xs => wseq (write_number xs.length LONG_TYPE) (write_scalar_list env mt (pySorted scalLe xs))

/-- The loop of read_map: read `n` (key, value) pairs, raising `duplicate key`
when a freshly decoded key is already present. -/
def read_map_list (env : CodecEnv) (kt vt : ItemType) :
    Nat → List (Scalar × Scalar) → List Nat → RRes (List (Scalar × Scalar))
  | 0, m, s => .ok (m, s)
  | n + 1, m, s =>
    match read_scalar env kt s with
    | .error e => .error e
    | .ok (key, s1) =>
      match read_scalar env vt s1 with
      | .error e => .error e
      | .ok (value, s2) =>
        if key ∈ m.map Prod.fst then .error .duplicateKey
        else read_map_list env kt vt n (m ++ [(key, value)]) s2

/-- read_map: read the wide count, then that many pairs. -/
def read_map (env : CodecEnv) (kt vt : ItemType) (s : List Nat) : RRes Val :=
  match read_number LONG_TYPE s with
  | .error e => .error e
  | .ok (l, s1) =>
    match read_map_list env kt vt l.toNat [] s1 with
    | .error e => .error e
    | .ok (al, s2) => .ok (.vmap al, s2)

/-- The loop of write_map over `sorted(m.items())`: write key, then value. -/
def write_pair_list (env : CodecEnv) (kt vt : ItemType) : List (Scalar × Scalar) → WOut
  | [] => wOk []
  | (key, value) :: ps =>
    wseq (wseq (write_scalar env key kt) (write_scalar env value vt)) (write_pair_list env kt vt ps)

/-- write_map: emit the wide entry count, then the pairs in `sorted` order of
`m.items()`; only a dict has `.items()` (`TypeError` otherwise). -/
def write_map (env : CodecEnv) (m : Val) (kt vt : ItemType) : WOut :=
  match m with
  | .vmap al => wseq (write_number al.length LONG_TYPE) (write_pair_list env kt vt (pySorted pairLe al))
  | _ => wErr .typeError

/-- Python's `s.split(sep)` over the character list, single-character
separator: every separator occurrence splits, empty pieces kept. -/
def splitChar (sep : Char) : List Char → List Char → List (List Char)
  | [], acc => [acc.reverse]
  | c :: cs, acc =>
    if c = sep then acc.reverse :: splitChar sep cs []
    else splitChar sep cs (c :: acc)

/-- One descriptor component: split on the first '/' into tag and encoding
hint, if a '/' is present. -/
def parse_component (c : String) : ItemType :=
  if c.data.contains '/' then
    let i := c.data.indexOf '/'
    (String.mk (c.data.take i), some (String.mk (c.data.drop (i + 1))))
  else (c, none)

/-- parse_type_descr: split the descriptor on ':' into components, each split
on its first '/' into (tag, encoding hint). -/
def parse_type_descr (type_descr : String) : List ItemType :=
  (splitChar ':' type_descr.data []).map (fun cs => parse_component (String.mk cs))

/-- The read dispatcher: parse the descriptor, route on its first tag.
A missing nested component is an IndexError in the source (`typeError`
here); `splitChar` never returns an empty component list. -/
def read (env : CodecEnv) (type_descr : String) (s : List Nat) : RRes Val :=
  match parse_type_descr type_descr with
  | [] => .error .typeError
  | t0 :: ts =>
    if t0.1 ∈ SCALAR_TYPES then
      match read_scalar env t0 s with
      | .ok (v, s1) => .ok (.scal v, s1)
      | .error e => .error e
    else if t0.1 = "vec" then
      match ts with
      | et :: _ => read_vector env et s
      | [] => .error .typeError
    else if t0.1 = "set" then
      match ts with
      | mt :: _ => read_set env mt s
      | [] => .error .typeError
    else if t0.1 = "map" then
      match ts with
      | kt :: vt :: _ => read_map env kt vt s
      | _ => .error .typeError
    else .error (.unsupportedType t0.1)

/-- The write dispatcher: parse the descriptor, route on its first tag; a
scalar tag needs a scalar item (the scalar writers raise on other shapes). -/
def write (env : CodecEnv) (item : Val) (type_descr : String) : WOut :=
  match parse_type_descr type_descr with
  | [] => wErr .typeError
  | t0 :: ts =>
    if t0.1 ∈ SCALAR_TYPES then
      match item with
      | .scal v => write_scalar env v t0
      | _ => wErr .typeError
    else if t0.1 = "vec" then
      match ts with
      | et :: _ => write_vector env item et
      | [] => wErr .typeError
    else if t0.1 = "set" then
      match ts with
      | mt :: _ => write_set env item mt
      | [] => wErr .typeError
    else if t0.1 = "map" then
      match ts with
      | kt :: vt :: _ => write_map env item kt vt
      | _ => wErr .typeError
    else wErr (.unsupportedType t0.1)

/-- Association-list lookup, Python's `m[k]` on the insertion-order model of
a dict. -/
def alLookup (k : Scalar) : List (Scalar × Scalar) → Option Scalar
  | [] => none
  | (k1, v) :: ps => if k1 = k then some v else alLookup k ps

/-- The identity codec: encodes each code point as one equal byte and back,
the behaviour of 'latin-1' on points below 256.  Used to instantiate
theorems at concrete inputs. -/
def idCodec : TextCodec := ⟨fun s => some s, fun bs => some bs⟩

/-- A codec registry resolving every name to the identity codec. -/
def env0 : CodecEnv := fun _ => idCodec

/-! Lemmas: the little-endian layer. -/

theorem natToLE_length (w n : Nat) : (natToLE w n).length = w := by
  induction w generalizing n with
  | zero => rfl
  | succ w ih => simp [natToLE, ih]

theorem leToNat_natToLE (w n : Nat) : leToNat (natToLE w n) = n % 256 ^ w := by
  induction w generalizing n with
  | zero => simp [natToLE, leToNat, Nat.mod_one]
  | succ w ih =>
    have h1 : n % (256 * 256 ^ w) % 256 = n % 256 := Nat.mod_mod_of_dvd n ⟨256 ^ w, rfl⟩
    have h2 : n % (256 * 256 ^ w) / 256 = n / 256 % 256 ^ w :=
      Nat.mod_mul_right_div_self n 256 (256 ^ w)
    have h3 := Nat.div_add_mod (n % (256 * 256 ^ w)) 256
    rw [pow_succ']
    simp only [natToLE, leToNat, ih]
    omega

/-- A format with a nonzero packed size is one of the six numeric formats. -/
theorem mem_NUMERIC_of_size_pos {fmt : String} (h : NUMBER_SIZES fmt ≠ 0) :
    fmt ∈ NUMERIC_FMT := by
  unfold NUMBER_SIZES at h
  unfold NUMERIC_FMT
  split_ifs at h with h1 h2 h3 h4 h5 h6 <;> simp_all

theorem struct_pack_length {fmt : String} {v : Int} {bs : List Nat}
    (h : struct_pack fmt v = .ok bs) : bs.length = NUMBER_SIZES fmt := by
  unfold struct_pack at h
  split_ifs at h with h1 h2
  cases h
  exact natToLE_length _ _

theorem struct_pack_size_pos {fmt : String} {v : Int} {bs : List Nat}
    (h : struct_pack fmt v = .ok bs) : NUMBER_SIZES fmt ≠ 0 := by
  unfold struct_pack at h
  split_ifs at h with h1 h2
  exact h1

/-- Unpacking the packed bytes of an in-range value gives the value back. -/
theorem struct_unpack_pack {fmt : String} {v : Int} {bs : List Nat}
    (h : struct_pack fmt v = .ok bs) : struct_unpack fmt bs = v := by
  unfold struct_pack at h
  split_ifs at h with h1 h2
  cases h
  set w := NUMBER_SIZES fmt with hw
  have hwpos : 0 < w := Nat.pos_of_ne_zero h1
  have hM : ((256 ^ w : Nat) : Int) = 2 ^ (8 * w) := by
    push_cast
    rw [show ((256 : Int)) = 2 ^ 8 by norm_num, ← pow_mul]
  have hMpos : (0 : Int) < 2 ^ (8 * w) := by positivity
  have hmodnn : 0 ≤ v % 2 ^ (8 * w) := Int.emod_nonneg v (by omega)
  have hmodlt : v % 2 ^ (8 * w) < 2 ^ (8 * w) := Int.emod_lt_of_pos v hMpos
  have htn : ((v % 2 ^ (8 * w)).toNat : Int) = v % 2 ^ (8 * w) := Int.toNat_of_nonneg hmodnn
  have hlt : (v % 2 ^ (8 * w)).toNat < 256 ^ w := by
    have := hmodlt
    omega
  have hu : (leToNat (natToLE w (v % 2 ^ (8 * w)).toNat) : Int) = v % 2 ^ (8 * w) := by
    rw [leToNat_natToLE, Nat.mod_eq_of_lt hlt, htn]
  have hsplit : (2 : Int) ^ (8 * w) = 2 ^ (8 * w - 1) * 2 := by
    rw [← pow_succ]
    congr 1
    omega
  have hHpos : (0 : Int) < 2 ^ (8 * w - 1) := by positivity
  unfold struct_unpack
  rw [← hw, hu]
  by_cases hs : signedFmt fmt = true
  · unfold packOk at h2
    rw [if_pos hs, decide_eq_true_eq, ← hw] at h2
    obtain ⟨h2a, h2b⟩ := h2
    rcases le_or_lt 0 v with hv0 | hv0
    · have hveq : v % 2 ^ (8 * w) = v := Int.emod_eq_of_lt hv0 (by omega)
      have hcond : ¬((2 : Int) ^ (8 * w - 1) ≤ v) := by omega
      rw [hveq, hs]
      simp [hcond]
    · have h5 : (v + 2 ^ (8 * w) * 1) % 2 ^ (8 * w) = v % 2 ^ (8 * w) := by
        rw [Int.add_mul_emod_self_left]
      have h6 : (v + 2 ^ (8 * w)) % 2 ^ (8 * w) = v + 2 ^ (8 * w) :=
        Int.emod_eq_of_lt (by omega) (by omega)
      have hveq : v % 2 ^ (8 * w) = v + 2 ^ (8 * w) := by
        rw [mul_one] at h5
        omega
      have hcond : (2 : Int) ^ (8 * w - 1) ≤ v + 2 ^ (8 * w) := by omega
      rw [hveq, hs]
      simp only [hcond, decide_eq_true_eq, Bool.true_and, decide_True, if_true]
      omega
  · have hs2 : signedFmt fmt = false := by
      revert hs
      cases signedFmt fmt <;> simp
    unfold packOk at h2
    rw [hs2] at h2
    rw [if_neg (by simp), decide_eq_true_eq, ← hw] at h2
    obtain ⟨h2a, h2b⟩ := h2
    have hveq : v % 2 ^ (8 * w) = v := Int.emod_eq_of_lt h2a h2b
    rw [hveq, hs2]
    simp

/-! Lemmas: write sequencing. -/

theorem wseq_res_ok {a b : WOut} {n : Nat} (h : (wseq a b).res = .ok n) :
    (∃ p, a.res = .ok p) ∧ (∃ q, b.res = .ok q) := by
  unfold wseq at h
  cases ha : a.res with
  | error e => rw [ha] at h; cases h
  | ok p =>
    rw [ha] at h
    cases hb : b.res with
    | error e => rw [hb] at h; cases h
    | ok q => exact ⟨⟨p, rfl⟩, ⟨q, rfl⟩⟩

theorem wseq_out_of_fst_ok {a b : WOut} {p : Nat} (ha : a.res = .ok p) :
    (wseq a b).out = a.out ++ b.out := by
  unfold wseq
  rw [ha]
  cases hb : b.res <;> rfl

/-! Lemmas: scalar codec round-trips. -/

/-- A successful write_number is read back by read_number with the same
component, and consumes exactly its own bytes. -/
theorem read_write_number {t : ItemType} {v : Int} {n : Nat} (rest : List Nat)
    (h : (write_number v t).res = .ok n) :
    read_number t ((write_number v t).out ++ rest) = .ok (v, rest) := by
  unfold write_number at h ⊢
  cases hp : struct_pack t.1 v with
  | error e => rw [hp] at h; cases h
  | ok bs =>
    rw [hp] at h
    dsimp only at h ⊢
    have hlen : bs.length = NUMBER_SIZES t.1 := struct_pack_length hp
    have hmem : t.1 ∈ NUMERIC_FMT := mem_NUMERIC_of_size_pos (struct_pack_size_pos hp)
    unfold read_number
    rw [if_pos hmem]
    have hle : NUMBER_SIZES t.1 ≤ (wOk bs).out.length + rest.length := by
      simp [wOk, hlen]
    rw [if_pos (by simpa [wOk] using hle)]
    have htake : ((wOk bs).out ++ rest).take (NUMBER_SIZES t.1) = bs := by
      simp only [wOk]
      rw [← hlen]
      exact List.take_left bs rest
    have hdrop : ((wOk bs).out ++ rest).drop (NUMBER_SIZES t.1) = rest := by
      simp only [wOk]
      rw [← hlen]
      exact List.drop_left bs rest
    rw [htake, hdrop, struct_unpack_pack hp]

/-- fmt_to_len_type always yields one of the two numeric length components. -/
theorem fmt_to_len_type_cases (fmt : String) :
    fmt_to_len_type fmt = LONG_TYPE ∨ fmt_to_len_type fmt = SHORT_TYPE := by
  unfold fmt_to_len_type
  split_ifs <;> simp

/-- A successful write_bytes is read back by read_bytes with the same
component, and consumes exactly its own bytes. -/
theorem read_write_bytes {t : ItemType} {bs : List Nat} {n : Nat} (rest : List Nat)
    (h : (write_bytes bs t).res = .ok n) :
    read_bytes t ((write_bytes bs t).out ++ rest) = .ok (bs, rest) := by
  unfold write_bytes at h ⊢
  cases hg : get_len_and_fmt bs.length t.1 with
  | error e => rw [hg] at h; cases h
  | ok lf =>
    rw [hg] at h
    obtain ⟨len, nt⟩ := lf
    dsimp only at h ⊢
    have hlf : len = bs.length ∧ nt = fmt_to_len_type t.1 := by
      unfold get_len_and_fmt at hg
      split_ifs at hg
      cases hg
      exact ⟨rfl, rfl⟩
    obtain ⟨hlen, hnt⟩ := hlf
    subst hlen
    subst hnt
    obtain ⟨⟨p, hp⟩, -⟩ := wseq_res_ok h
    rw [wseq_out_of_fst_ok hp]
    unfold read_bytes
    rw [List.append_assoc]
    rw [read_write_number ((wOk bs).out ++ rest) hp]
    simp [wOk, List.take_left, List.drop_left]

/-- Decoding the bytes a lossless registry encoded gives the text back. -/
theorem decode_encode {env : CodecEnv} (henv : losslessEnv env) {cs bs : List Nat}
    {e : Option String} (he : encode_string env cs e = .ok bs) :
    decode_string env bs e = .ok cs := by
  unfold encode_string at he
  unfold decode_string
  cases henc : (env (resolve_enc e)).enc cs with
  | none => rw [henc] at he; cases he
  | some bs2 =>
    rw [henc] at he
    cases he
    rw [henv _ _ _ henc]

/-- A successful write_string is read back by read_string with the same
component under a lossless codec registry, consuming exactly its own
bytes. -/
theorem read_write_string {env : CodecEnv} (henv : losslessEnv env) {t : ItemType}
    {cs : List Nat} {n : Nat} (rest : List Nat)
    (h : (write_string env cs t).res = .ok n) :
    read_string env t ((write_string env cs t).out ++ rest) = .ok (cs, rest) := by
  unfold write_string at h ⊢
  cases he : encode_string env cs t.2 with
  | error e => rw [he] at h; cases h
  | ok bs =>
    rw [he] at h
    dsimp only at h ⊢
    cases hg : get_len_and_fmt bs.length t.1 with
    | error e => rw [hg] at h; cases h
    | ok lf =>
      rw [hg] at h
      obtain ⟨len, nt⟩ := lf
      dsimp only at h ⊢
      have hlf : len = bs.length ∧ nt = fmt_to_len_type t.1 := by
        unfold get_len_and_fmt at hg
        split_ifs at hg
        cases hg
        exact ⟨rfl, rfl⟩
      obtain ⟨hlen, hnt⟩ := hlf
      subst hlen
      subst hnt
      obtain ⟨⟨p, hp⟩, -⟩ := wseq_res_ok h
      rw [wseq_out_of_fst_ok hp]
      unfold read_string
      rw [List.append_assoc]
      rw [read_write_number ((wOk bs).out ++ rest) hp]
      dsimp only
      have htake : ((wOk bs).out ++ rest).take ((↑bs.length : Int)).toNat = bs := by
        simp [wOk, List.take_left]
      have hdrop : ((wOk bs).out ++ rest).drop ((↑bs.length : Int)).toNat = rest := by
        simp [wOk, List.drop_left]
      rw [htake, hdrop, decode_encode henv he]

/-- A successful write_scalar is read back by read_scalar with the same
component under a lossless codec registry, consuming exactly its own
bytes. -/
theorem read_write_scalar {env : CodecEnv} (henv : losslessEnv env) {t : ItemType}
    {item : Scalar} {n : Nat} (rest : List Nat)
    (h : (write_scalar env item t).res = .ok n) :
    read_scalar env t ((write_scalar env item t).out ++ rest) = .ok (item, rest) := by
  unfold write_scalar at h ⊢
  unfold read_scalar
  by_cases h1 : t.1 ∈ NUMERIC_FMT
  · simp only [if_pos h1] at h ⊢
    cases item with
    | num v =>
      dsimp only at h ⊢
      rw [read_write_number rest h]
    | str cs => dsimp only at h; cases h
    | byt bs => dsimp only at h; cases h
  · simp only [if_neg h1] at h ⊢
    by_cases h2 : t.1 ∈ STRING_TYPES
    · simp only [if_pos h2] at h ⊢
      cases item with
      | str cs =>
        dsimp only at h ⊢
        rw [read_write_string henv rest h]
      | num v => dsimp only at h; cases h
      | byt bs => dsimp only at h; cases h
    · simp only [if_neg h2] at h ⊢
      by_cases h3 : t.1 ∈ BYTES_TYPES
      · simp only [if_pos h3] at h ⊢
        cases item with
        | byt bs =>
          dsimp only at h ⊢
          rw [read_write_bytes rest h]
        | num v => dsimp only at h; cases h
        | str cs => dsimp only at h; cases h
      · simp only [if_neg h3] at h
        cases h

/-! Lemmas: container loop round-trips. -/

/-- Reading back, in order, the bytes of a successfully written scalar list. -/
theorem read_write_scalar_list {env : CodecEnv} (henv : losslessEnv env) {t : ItemType}
    {vs : List Scalar} {n : Nat} (rest : List Nat)
    (h : (write_scalar_list env t vs).res = .ok n) :
    read_scalar_list env t vs.length ((write_scalar_list env t vs).out ++ rest)
      = .ok (vs, rest) := by
  induction vs generalizing n rest with
  | nil => simp [write_scalar_list, wOk, read_scalar_list]
  | cons v vs ih =>
    unfold write_scalar_list at h ⊢
    obtain ⟨⟨p, hp⟩, ⟨q, hq⟩⟩ := wseq_res_ok h
    rw [wseq_out_of_fst_ok hp, List.length_cons, List.append_assoc]
    unfold read_scalar_list
    rw [read_write_scalar henv _ hp]
    dsimp only
    rw [ih _ hq]

/-- Reading back the bytes of a written scalar list into a set accumulates
exactly the fold of `set.add` over the written members. -/
theorem read_write_set_list {env : CodecEnv} (henv : losslessEnv env) {t : ItemType}
    {vs : List Scalar} {n : Nat} (rest : List Nat) (acc : List Scalar)
    (h : (write_scalar_list env t vs).res = .ok n) :
    read_set_list env t vs.length acc ((write_scalar_list env t vs).out ++ rest)
      = .ok (vs.foldl set_insert acc, rest) := by
  induction vs generalizing n rest acc with
  | nil => simp [write_scalar_list, wOk, read_set_list]
  | cons v vs ih =>
    unfold write_scalar_list at h ⊢
    obtain ⟨⟨p, hp⟩, ⟨q, hq⟩⟩ := wseq_res_ok h
    rw [wseq_out_of_fst_ok hp, List.length_cons, List.append_assoc]
    unfold read_set_list
    rw [read_write_scalar henv _ hp]
    dsimp only
    rw [ih _ _ hq]
    rfl

/-- Reading back the bytes of a successfully written pair list extends the
accumulated map with the written pairs, provided all keys stay distinct. -/
theorem read_write_map_list {env : CodecEnv} (henv : losslessEnv env) {kt vt : ItemType}
    {ps : List (Scalar × Scalar)} {n : Nat} (rest : List Nat) (acc : List (Scalar × Scalar))
    (h : (write_pair_list env kt vt ps).res = .ok n)
    (hnd : ((acc ++ ps).map Prod.fst).Nodup) :
    read_map_list env kt vt ps.length acc ((write_pair_list env kt vt ps).out ++ rest)
      = .ok (acc ++ ps, rest) := by
  induction ps generalizing n rest acc with
  | nil => simp [write_pair_list, wOk, read_map_list]
  | cons p ps ih =>
    obtain ⟨k, v⟩ := p
    unfold write_pair_list at h ⊢
    obtain ⟨⟨p1, hp1⟩, ⟨q1, hq1⟩⟩ := wseq_res_ok h
    obtain ⟨⟨p2, hp2⟩, ⟨q2, hq2⟩⟩ := wseq_res_ok hp1
    rw [wseq_out_of_fst_ok hp1, wseq_out_of_fst_ok hp2, List.length_cons]
    unfold read_map_list
    rw [List.append_assoc, List.append_assoc]
    rw [read_write_scalar henv _ hp2]
    dsimp only
    rw [read_write_scalar henv _ hq2]
    dsimp only
    have hk : k ∉ acc.map Prod.fst := by
      intro hmem
      have hsplit := List.nodup_append.mp (show (acc.map Prod.fst ++ k :: ps.map Prod.fst).Nodup by
        simpa using hnd)
      exact hsplit.2.2 hmem (by simp)
    rw [if_neg hk]
    have hnd2 : (((acc ++ [(k, v)]) ++ ps).map Prod.fst).Nodup := by
      simpa using hnd
    rw [ih _ _ hq1 hnd2]
    simp

/-- Reading back the bytes of a successfully written pair list raises
`duplicate key` when the written keys, together with those already
accumulated, contain a repeat (the accumulated keys themselves being
distinct). -/
theorem read_map_list_dup {env : CodecEnv} (henv : losslessEnv env) {kt vt : ItemType}
    {ps : List (Scalar × Scalar)} {n : Nat} (rest : List Nat) (acc : List (Scalar × Scalar))
    (h : (write_pair_list env kt vt ps).res = .ok n)
    (hacc : (acc.map Prod.fst).Nodup)
    (hdup : ¬ ((acc ++ ps).map Prod.fst).Nodup) :
    read_map_list env kt vt ps.length acc ((write_pair_list env kt vt ps).out ++ rest)
      = .error .duplicateKey := by
  induction ps generalizing n rest acc with
  | nil => exact absurd (by simpa using hacc) hdup
  | cons p ps ih =>
    obtain ⟨k, v⟩ := p
    unfold write_pair_list at h ⊢
    obtain ⟨⟨p1, hp1⟩, ⟨q1, hq1⟩⟩ := wseq_res_ok h
    obtain ⟨⟨p2, hp2⟩, ⟨q2, hq2⟩⟩ := wseq_res_ok hp1
    rw [wseq_out_of_fst_ok hp1, wseq_out_of_fst_ok hp2, List.length_cons]
    unfold read_map_list
    rw [List.append_assoc, List.append_assoc]
    rw [read_write_scalar henv _ hp2]
    dsimp only
    rw [read_write_scalar henv _ hq2]
    dsimp only
    by_cases hk : k ∈ acc.map Prod.fst
    · rw [if_pos hk]
    · rw [if_neg hk]
      have hacc2 : ((acc ++ [(k, v)]).map Prod.fst).Nodup := by
        rw [List.map_append, List.nodup_append]
        refine ⟨hacc, by simp, ?_⟩
        intro a ha ha2
        simp only [List.map_cons, List.map_nil, List.mem_singleton] at ha2
        subst ha2
        exact hk ha
      have hdup2 : ¬ (((acc ++ [(k, v)]) ++ ps).map Prod.fst).Nodup := by
        intro hcon
        exact hdup (by simpa using hcon)
      exact ih _ _ hq1 hacc2 hdup2

/-! Lemmas: assembling container reads from their parts (stated over an
abstract stream, so that instantiation never forces evaluation of a packed
prefix at an unknown value). -/

theorem read_vector_of_parts {env : CodecEnv} {et : ItemType} {s s1 s2 : List Nat} {l : Int}
    {vs : List Scalar}
    (h1 : read_number LONG_TYPE s = .ok (l, s1))
    (h2 : read_scalar_list env et l.toNat s1 = .ok (vs, s2)) :
    read_vector env et s = .ok (.vvec vs, s2) := by
  unfold read_vector
  rw [h1]
  dsimp only
  rw [h2]

theorem read_set_of_parts {env : CodecEnv} {mt : ItemType} {s s1 s2 : List Nat} {l : Int}
    {ms : List Scalar}
    (h1 : read_number LONG_TYPE s = .ok (l, s1))
    (h2 : read_set_list env mt l.toNat [] s1 = .ok (ms, s2)) :
    read_set env mt s = .ok (.vset ms, s2) := by
  unfold read_set
  rw [h1]
  dsimp only
  rw [h2]

theorem read_map_of_parts {env : CodecEnv} {kt vt : ItemType} {s s1 s2 : List Nat} {l : Int}
    {al : List (Scalar × Scalar)}
    (h1 : read_number LONG_TYPE s = .ok (l, s1))
    (h2 : read_map_list env kt vt l.toNat [] s1 = .ok (al, s2)) :
    read_map env kt vt s = .ok (.vmap al, s2) := by
  unfold read_map
  rw [h1]
  dsimp only
  rw [h2]

theorem read_map_of_parts_err {env : CodecEnv} {kt vt : ItemType} {s s1 : List Nat} {l : Int}
    {e : Err}
    (h1 : read_number LONG_TYPE s = .ok (l, s1))
    (h2 : read_map_list env kt vt l.toNat [] s1 = .error e) :
    read_map env kt vt s = .error e := by
  unfold read_map
  rw [h1]
  dsimp only
  rw [h2]

/-! Lemmas: the sort used before writing sets and maps. -/

theorem insertLe_perm {α : Type} (le : α → α → Bool) (a : α) (l : List α) :
    List.Perm (insertLe le a l) (a :: l) := by
  induction l with
  | nil => exact List.Perm.refl _
  | cons b bs ih =>
    unfold insertLe
    split_ifs
    · exact List.Perm.refl _
    · exact (ih.cons b).trans (List.Perm.swap a b bs)

theorem pySorted_perm {α : Type} (le : α → α → Bool) (l : List α) :
    List.Perm (pySorted le l) l := by
  induction l with
  | nil => exact List.Perm.refl _
  | cons a as ih => exact (insertLe_perm le a (pySorted le as)).trans (ih.cons a)

theorem mem_insertLe {α : Type} {le : α → α → Bool} {a x : α} {l : List α} :
    x ∈ insertLe le a l ↔ x = a ∨ x ∈ l := by
  rw [(insertLe_perm le a l).mem_iff]
  simp

theorem insertLe_pairwise {α : Type} {le : α → α → Bool}
    (htot : ∀ x y : α, le x y = true ∨ le y x = true)
    (htrans : ∀ x y z : α, le x y = true → le y z = true → le x z = true)
    (a : α) {l : List α} (hl : l.Pairwise (fun x y => le x y = true)) :
    (insertLe le a l).Pairwise (fun x y => le x y = true) := by
  induction l with
  | nil => simp [insertLe]
  | cons b bs ih =>
    rw [List.pairwise_cons] at hl
    obtain ⟨hb, hbs⟩ := hl
    unfold insertLe
    split_ifs with hab
    · refine List.pairwise_cons.mpr ⟨?_, List.pairwise_cons.mpr ⟨hb, hbs⟩⟩
      intro x hx
      rcases List.mem_cons.mp hx with hx | hx
      · subst hx; exact hab
      · exact htrans a b x hab (hb x hx)
    · refine List.pairwise_cons.mpr ⟨?_, ih hbs⟩
      intro x hx
      rcases mem_insertLe.mp hx with hx | hx
      · rw [hx]
        rcases htot a b with h | h
        · exact absurd h hab
        · exact h
      · exact hb x hx

theorem pySorted_pairwise {α : Type} {le : α → α → Bool}
    (htot : ∀ x y : α, le x y = true ∨ le y x = true)
    (htrans : ∀ x y z : α, le x y = true → le y z = true → le x z = true)
    (l : List α) : (pySorted le l).Pairwise (fun x y => le x y = true) := by
  induction l with
  | nil => simp [pySorted]
  | cons a as ih => exact insertLe_pairwise htot htrans a ih

/-- Two sorted permutations of each other are equal, given antisymmetry of the
order on the elements in play. -/
theorem sorted_eq_of_perm {α : Type} {le : α → α → Bool} :
    ∀ {l1 l2 : List α}, List.Perm l1 l2 →
      l1.Pairwise (fun x y => le x y = true) → l2.Pairwise (fun x y => le x y = true) →
      (∀ a ∈ l1, ∀ b ∈ l1, le a b = true → le b a = true → a = b) → l1 = l2
  | [], l2, hp, _, _, _ => by
    rw [List.Perm.nil_eq hp]
  | a :: t1, [], hp, _, _, _ => by
    exact absurd hp.symm (by simp)
  | a :: t1, b :: t2, hp, hs1, hs2, hanti => by
    have hab : a = b := by
      by_cases heq : a = b
      · exact heq
      · have hbmem : b ∈ a :: t1 := hp.mem_iff.mpr (by simp)
        have hamem : a ∈ b :: t2 := hp.symm.mem_iff.mpr (by simp)
        have hb1 : b ∈ t1 := by
          rcases List.mem_cons.mp hbmem with h | h
          · exact absurd h.symm heq
          · exact h
        have ha2 : a ∈ t2 := by
          rcases List.mem_cons.mp hamem with h | h
          · exact absurd h heq
          · exact h
        have h1 : le a b = true := (List.pairwise_cons.mp hs1).1 b hb1
        have h2 : le b a = true := (List.pairwise_cons.mp hs2).1 a ha2
        exact hanti a (by simp) b (by simp [hb1]) h1 h2
    subst hab
    have htail : t1 = t2 :=
      sorted_eq_of_perm hp.cons_inv (List.pairwise_cons.mp hs1).2 (List.pairwise_cons.mp hs2).2
        (fun x hx y hy => hanti x (by simp [hx]) y (by simp [hy]))
    rw [htail]

/-! Lemmas: the order relations are total, transitive and antisymmetric on
scalars. -/

theorem lexLe_total : ∀ a b : List Nat, lexLe a b = true ∨ lexLe b a = true := by
  intro a
  induction a with
  | nil => intro b; left; rfl
  | cons x xs ih =>
    intro b
    cases b with
    | nil => right; rfl
    | cons y ys =>
      unfold lexLe
      rcases Nat.lt_trichotomy x y with h | h | h
      · left; rw [if_pos h]
      · subst h
        simp only [lt_irrefl, if_false]
        exact ih ys
      · right; rw [if_pos h]

theorem lexLe_antisymm : ∀ a b : List Nat, lexLe a b = true → lexLe b a = true → a = b := by
  intro a
  induction a with
  | nil =>
    intro b _ hba
    cases b with
    | nil => rfl
    | cons y ys => cases hba
  | cons x xs ih =>
    intro b hab hba
    cases b with
    | nil => cases hab
    | cons y ys =>
      unfold lexLe at hab hba
      rcases Nat.lt_trichotomy x y with h | h | h
      · rw [if_neg (by omega), if_pos h] at hba
        cases hba
      · subst h
        simp only [lt_irrefl, if_false] at hab hba
        rw [ih ys hab hba]
      · rw [if_neg (by omega), if_pos h] at hab
        cases hab

theorem lexLe_trans : ∀ a b c : List Nat,
    lexLe a b = true → lexLe b c = true → lexLe a c = true := by
  intro a
  induction a with
  | nil => intro b c _ _; rfl
  | cons x xs ih =>
    intro b c hab hbc
    cases b with
    | nil => cases hab
    | cons y ys =>
      cases c with
      | nil => cases hbc
      | cons z zs =>
        unfold lexLe at hab hbc ⊢
        by_cases hxy : x < y
        · by_cases hyz : y < z
          · rw [if_pos (by omega)]
          · rw [if_neg hyz] at hbc
            by_cases hzy : z < y
            · rw [if_pos hzy] at hbc; cases hbc
            · have : y = z := by omega
              subst this
              rw [if_pos hxy]
        · rw [if_neg hxy] at hab
          by_cases hyx : y < x
          · rw [if_pos hyx] at hab; cases hab
          · have hxy2 : x = y := by omega
            subst hxy2
            simp only [lt_irrefl, if_false] at hab
            by_cases hxz : x < z
            · rw [if_pos hxz]
            · rw [if_neg hxz] at hbc ⊢
              by_cases hzx : z < x
              · rw [if_pos hzx] at hbc; cases hbc
              · rw [if_neg hzx] at hbc ⊢
                exact ih ys zs hab hbc

theorem scalLe_total : ∀ a b : Scalar, scalLe a b = true ∨ scalLe b a = true := by
  intro a b
  cases a <;> cases b <;> simp [scalLe, rank] <;>
    first
      | omega
      | exact le_total _ _
      | exact lexLe_total _ _

theorem scalLe_antisymm : ∀ a b : Scalar,
    scalLe a b = true → scalLe b a = true → a = b := by
  intro a b hab hba
  cases a <;> cases b <;> simp [scalLe, rank] at hab hba ⊢ <;>
    first
      | omega
      | exact le_antisymm hab hba
      | exact lexLe_antisymm _ _ hab hba

theorem scalLe_trans : ∀ a b c : Scalar,
    scalLe a b = true → scalLe b c = true → scalLe a c = true := by
  intro a b c hab hbc
  cases a <;> cases b <;> cases c <;> simp [scalLe, rank] at hab hbc ⊢ <;>
    first
      | omega
      | exact le_trans hab hbc
      | exact lexLe_trans _ _ _ hab hbc

theorem scalLe_refl (a : Scalar) : scalLe a a = true := by
  rcases scalLe_total a a with h | h <;> exact h

theorem pairLe_total : ∀ p q : Scalar × Scalar, pairLe p q = true ∨ pairLe q p = true := by
  intro p q
  unfold pairLe
  rcases scalLe_total p.1 q.1 with h1 | h1
  · by_cases h2 : scalLe q.1 p.1 = true
    · rw [if_pos h1, if_pos h2, if_pos h1, if_pos h2]
      exact scalLe_total p.2 q.2
    · left
      rw [if_pos h1, if_neg h2]
  · by_cases h2 : scalLe p.1 q.1 = true
    · rw [if_pos h1, if_pos h2, if_pos h2, if_pos h1]
      exact scalLe_total p.2 q.2
    · right
      rw [if_pos h1, if_neg h2]

theorem pairLe_trans : ∀ p q r : Scalar × Scalar,
    pairLe p q = true → pairLe q r = true → pairLe p r = true := by
  intro p q r hpq hqr
  unfold pairLe at hpq hqr ⊢
  by_cases h1 : scalLe p.1 q.1 = true
  · rw [if_pos h1] at hpq
    by_cases h2 : scalLe q.1 r.1 = true
    · rw [if_pos h2] at hqr
      have h13 : scalLe p.1 r.1 = true := scalLe_trans _ _ _ h1 h2
      rw [if_pos h13]
      by_cases h31 : scalLe r.1 p.1 = true
      · rw [if_pos h31]
        have h21 : scalLe q.1 p.1 = true := scalLe_trans _ _ _ h2 h31
        have h32 : scalLe r.1 q.1 = true := scalLe_trans _ _ _ h31 h1
        rw [if_pos h21] at hpq
        rw [if_pos h32] at hqr
        exact scalLe_trans _ _ _ hpq hqr
      · rw [if_neg h31]
    · rw [if_neg h2] at hqr
      cases hqr
  · rw [if_neg h1] at hpq
    cases hpq

/-! Lemmas: set insertion. -/

theorem mem_set_insert {acc : List Scalar} {a v : Scalar} :
    v ∈ set_insert acc a ↔ v ∈ acc ∨ v = a := by
  unfold set_insert
  split_ifs with h
  · constructor
    · intro hv; exact Or.inl hv
    · rintro (hv | hv)
      · exact hv
      · subst hv; exact h
  · simp

theorem mem_foldl_set_insert (l : List Scalar) (acc : List Scalar) (v : Scalar) :
    v ∈ l.foldl set_insert acc ↔ v ∈ acc ∨ v ∈ l := by
  induction l generalizing acc with
  | nil => simp
  | cons a as ih =>
    rw [List.foldl_cons, ih, mem_set_insert]
    simp [or_assoc]

theorem foldl_set_insert_of_nodup :
    ∀ (l : List Scalar), l.Nodup → ∀ (acc : List Scalar), (∀ a ∈ l, a ∉ acc) →
      l.foldl set_insert acc = acc ++ l
  | [], _, acc, _ => by simp
  | a :: as, hnd, acc, hdisj => by
    rw [List.foldl_cons]
    have ha : a ∉ acc := hdisj a (by simp)
    have hstep : set_insert acc a = acc ++ [a] := by
      unfold set_insert
      rw [if_neg ha]
    rw [hstep]
    rw [List.nodup_cons] at hnd
    have hrec := foldl_set_insert_of_nodup as hnd.2 (acc ++ [a]) (by
      intro x hx hmem
      rcases List.mem_append.mp hmem with hm | hm
      · exact hdisj x (by simp [hx]) hm
      · rw [List.mem_singleton] at hm
        subst hm
        exact hnd.1 hx)
    rw [hrec]
    simp

/-! Lemmas: association-list lookup is permutation-invariant under distinct
keys. -/

theorem alLookup_perm {l1 l2 : List (Scalar × Scalar)} (h : List.Perm l1 l2) :
    ∀ k : Scalar, (l1.map Prod.fst).Nodup → alLookup k l1 = alLookup k l2 := by
  induction h with
  | nil => intro k _; rfl
  | cons p h ih =>
    intro k hnd
    obtain ⟨k1, v1⟩ := p
    unfold alLookup
    split_ifs with he
    · rfl
    · refine ih k ?_
      simp only [List.map_cons, List.nodup_cons] at hnd
      exact hnd.2
  | swap x y l =>
    intro k hnd
    obtain ⟨y1, v1⟩ := y
    obtain ⟨x1, v2⟩ := x
    simp only [List.map_cons, List.nodup_cons, List.mem_cons] at hnd
    have hxy : y1 ≠ x1 := by
      intro hcon
      exact hnd.1 (Or.inl hcon)
    unfold alLookup
    split_ifs with h1 h2 h2
    · exact absurd (h1.trans h2.symm) hxy
    · simp [alLookup, h1]
    · simp [alLookup, h2]
    · simp [alLookup, h1, h2]
  | trans h12 h23 ih1 ih2 =>
    intro k hnd
    have hnd2 : (_ : List (Scalar × Scalar)).map Prod.fst |>.Nodup :=
      ((h12.map Prod.fst).nodup_iff).mp hnd
    exact (ih1 k hnd).trans (ih2 k hnd2)

/-! Lemmas: arithmetic facts about particular writes. -/

theorem wseq_res_of_ok {a b : WOut} {p q : Nat} (ha : a.res = .ok p) (hb : b.res = .ok q) :
    (wseq a b).res = .ok (p + q) := by
  unfold wseq
  rw [ha, hb]

theorem write_number_B_res {v : Int} (h0 : 0 ≤ v) (h1 : v < 256) :
    (write_number v SHORT_TYPE).res = .ok 1 := by
  unfold write_number struct_pack
  rw [if_neg (by simp [NUMBER_SIZES, SHORT_TYPE])]
  rw [if_pos (by simp [packOk, signedFmt, NUMBER_SIZES, SHORT_TYPE]; omega)]
  simp [wOk, natToLE, NUMBER_SIZES, SHORT_TYPE]

theorem write_bytes_short_ok {bs : List Nat} (hlen : bs.length ≤ 255) :
    (write_bytes bs ("sbyt", none)).res = .ok (1 + bs.length) := by
  unfold write_bytes get_len_and_fmt
  rw [if_neg (fun hcon => absurd hcon.2 (by omega))]
  dsimp only
  have h1 : (write_number ((bs.length : Nat) : Int) (fmt_to_len_type "sbyt")).res = .ok 1 := by
    have hft : fmt_to_len_type "sbyt" = SHORT_TYPE := rfl
    rw [hft]
    exact write_number_B_res (by positivity) (by exact_mod_cast (by omega : bs.length < 256))
  exact wseq_res_of_ok h1 (by simp [wOk])

theorem write_bytes_overflow {bs : List Nat} (hlen : 255 < bs.length) :
    write_bytes bs ("sbyt", none) = wErr .lengthOverflow := by
  unfold write_bytes get_len_and_fmt
  rw [if_pos ⟨rfl, hlen⟩]

theorem write_string_short_ok {env : CodecEnv} {e : Option String} {cs bs : List Nat}
    (he : encode_string env cs e = .ok bs) (hlen : bs.length ≤ 255) :
    (write_string env cs ("sstr", e)).res = .ok (1 + bs.length) := by
  unfold write_string
  rw [he]
  dsimp only
  unfold get_len_and_fmt
  rw [if_neg (fun hcon => absurd hcon.2 (by omega))]
  dsimp only
  have h1 : (write_number ((bs.length : Nat) : Int) (fmt_to_len_type "sstr")).res = .ok 1 := by
    have hft : fmt_to_len_type "sstr" = SHORT_TYPE := rfl
    rw [hft]
    exact write_number_B_res (by positivity) (by exact_mod_cast (by omega : bs.length < 256))
  exact wseq_res_of_ok h1 (by simp [wOk])

theorem write_string_overflow {env : CodecEnv} {e : Option String} {cs bs : List Nat}
    (he : encode_string env cs e = .ok bs) (hlen : 255 < bs.length) :
    write_string env cs ("sstr", e) = wErr .lengthOverflow := by
  unfold write_string
  rw [he]
  dsimp only
  unfold get_len_and_fmt
  rw [if_pos ⟨rfl, hlen⟩]

/-- The codec registry resolving every name to the identity codec is
lossless. -/
theorem env0_lossless : losslessEnv env0 := by
  intro name s bs he
  cases he
  rfl

/-! The claims. -/

/-- C1: for every supported scalar tag (numeric 'b','B','i','I','l','L',
string 'str'/'sstr', bytes 'byt'/'sbyt') and every representable in-range
value (one write_scalar accepts), reading the bytes write_scalar produced
back with read_scalar under the same descriptor component yields the value
(and consumes exactly those bytes), for any lossless codec registry. -/
theorem C1_scalar_round_trip (env : CodecEnv) (henv : losslessEnv env) (t : ItemType)
    (item : Scalar) (n : Nat) (rest : List Nat)
    (h : (write_scalar env item t).res = .ok n) :
    read_scalar env t ((write_scalar env item t).out ++ rest) = .ok (item, rest) :=
  read_write_scalar henv rest h

/-- Witness for C1 at tag 'i' and value 4711. -/
theorem C1_scalar_round_trip_witness :
    read_scalar env0 ("i", none) ((write_scalar env0 (.num 4711) ("i", none)).out ++ [])
      = .ok (.num 4711, []) :=
  C1_scalar_round_trip env0 env0_lossless ("i", none) (.num 4711) 4 [] rfl

/-- C8: an unrecognized tag such as 'q' is not rejected by
parse_type_descr (which returns it as a component), but write fails at
dispatch with the 'type q unsupported' error, whatever the input value. -/
theorem C8_unsupported_tag :
    parse_type_descr "q" = [("q", none)]
    ∧ ∀ (env : CodecEnv) (x : Val), write env x "q" = wErr (.unsupportedType "q") := by
  refine ⟨rfl, ?_⟩
  intro env x
  rfl

/-- C9: writing None with a vec element type behaves exactly like writing an
empty vector: the wide-width zero count is emitted, no elements, and the
returned byte count is that of the count prefix alone (4 bytes); likewise
through the dispatcher with a 'vec:T' descriptor. -/
theorem C9_none_vector :
    (∀ (env : CodecEnv) (et : ItemType),
      write_vector env .vnone et = write_vector env (.vvec []) et
      ∧ write_vector env .vnone et = ⟨natToLE 4 0, .ok 4⟩)
    ∧ ∀ (env : CodecEnv), write env .vnone "vec:b" = ⟨natToLE 4 0, .ok 4⟩ := by
  refine ⟨fun env et => ⟨rfl, rfl⟩, fun env => rfl⟩

/-- C2: container round-trips under a lossless codec registry.  A written
vector reads back as the same ordered sequence; a written set (duplicate-free
member list) reads back as the sorted member list, membership-equal to the
original; a written dict (duplicate-free keys) reads back as the key-sorted
pair list, with every key looking up the same value as in the original. -/
theorem C2_container_round_trip :
    (∀ (env : CodecEnv), losslessEnv env → ∀ (et : ItemType) (xs : List Scalar) (n : Nat)
      (rest : List Nat), (write_vector env (.vvec xs) et).res = .ok n →
      read_vector env et ((write_vector env (.vvec xs) et).out ++ rest)
        = .ok (.vvec xs, rest))
    ∧
    (∀ (env : CodecEnv), losslessEnv env → ∀ (mt : ItemType) (xs : List Scalar) (n : Nat)
      (rest : List Nat), xs.Nodup → (write_set env (.vset xs) mt).res = .ok n →
      read_set env mt ((write_set env (.vset xs) mt).out ++ rest)
        = .ok (.vset (pySorted scalLe xs), rest)
      ∧ ∀ v : Scalar, v ∈ pySorted scalLe xs ↔ v ∈ xs)
    ∧
    (∀ (env : CodecEnv), losslessEnv env → ∀ (kt vt : ItemType)
      (al : List (Scalar × Scalar)) (n : Nat) (rest : List Nat),
      (al.map Prod.fst).Nodup → (write_map env (.vmap al) kt vt).res = .ok n →
      read_map env kt vt ((write_map env (.vmap al) kt vt).out ++ rest)
        = .ok (.vmap (pySorted pairLe al), rest)
      ∧ ∀ k : Scalar, alLookup k (pySorted pairLe al) = alLookup k al) := by
  refine ⟨?_, ?_, ?_⟩
  · intro env henv et xs n rest h
    have hw : write_vector env (.vvec xs) et
        = wseq (write_number ((xs.length : Nat) : Int) LONG_TYPE)
            (write_scalar_list env et xs) := rfl
    rw [hw] at h ⊢
    obtain ⟨⟨p, hp⟩, ⟨q, hq⟩⟩ := wseq_res_ok h
    rw [wseq_out_of_fst_ok hp, List.append_assoc]
    exact read_vector_of_parts (read_write_number _ hp)
      (by rw [Int.toNat_natCast]; exact read_write_scalar_list henv _ hq)
  · intro env henv mt xs n rest hnd h
    have hw : write_set env (.vset xs) mt
        = wseq (write_number ((xs.length : Nat) : Int) LONG_TYPE)
            (write_scalar_list env mt (pySorted scalLe xs)) := rfl
    rw [hw] at h ⊢
    obtain ⟨⟨p, hp⟩, ⟨q, hq⟩⟩ := wseq_res_ok h
    refine ⟨?_, fun v => (pySorted_perm scalLe xs).mem_iff⟩
    rw [wseq_out_of_fst_ok hp, List.append_assoc]
    have hsnd : (pySorted scalLe xs).Nodup := ((pySorted_perm scalLe xs).nodup_iff).mpr hnd
    refine read_set_of_parts (read_write_number _ hp) ?_
    rw [Int.toNat_natCast]
    have hlen : xs.length = (pySorted scalLe xs).length :=
      ((pySorted_perm scalLe xs).length_eq).symm
    rw [hlen, read_write_set_list henv _ [] hq]
    rw [foldl_set_insert_of_nodup _ hsnd [] (fun a _ hmem => by cases hmem)]
    rw [List.nil_append]
  · intro env henv kt vt al n rest hnd h
    have hw : write_map env (.vmap al) kt vt
        = wseq (write_number ((al.length : Nat) : Int) LONG_TYPE)
            (write_pair_list env kt vt (pySorted pairLe al)) := rfl
    rw [hw] at h ⊢
    obtain ⟨⟨p, hp⟩, ⟨q, hq⟩⟩ := wseq_res_ok h
    have hnds : ((pySorted pairLe al).map Prod.fst).Nodup :=
      (((pySorted_perm pairLe al).map Prod.fst).nodup_iff).mpr hnd
    refine ⟨?_, fun k => alLookup_perm (pySorted_perm pairLe al) k hnds⟩
    rw [wseq_out_of_fst_ok hp, List.append_assoc]
    refine read_map_of_parts (read_write_number _ hp) ?_
    rw [Int.toNat_natCast]
    have hlen : al.length = (pySorted pairLe al).length :=
      ((pySorted_perm pairLe al).length_eq).symm
    rw [hlen, read_write_map_list henv _ [] hq (by simpa using hnds)]
    rw [List.nil_append]

/-- Witness for C2: a two-element vector, set and map of 'B' numbers. -/
theorem C2_container_round_trip_witness :
    read_vector env0 ("B", none)
      ((write_vector env0 (.vvec [.num 1, .num 250]) ("B", none)).out ++ [])
      = .ok (.vvec [.num 1, .num 250], [])
    ∧ read_set env0 ("B", none)
      ((write_set env0 (.vset [.num 2, .num 1]) ("B", none)).out ++ [])
      = .ok (.vset (pySorted scalLe [.num 2, .num 1]), [])
    ∧ read_map env0 ("B", none) ("B", none)
      ((write_map env0 (.vmap [(.num 1, .num 2), (.num 0, .num 3)]) ("B", none) ("B", none)).out
        ++ [])
      = .ok (.vmap (pySorted pairLe [(.num 1, .num 2), (.num 0, .num 3)]), []) :=
  ⟨C2_container_round_trip.1 env0 env0_lossless ("B", none) [.num 1, .num 250] 6 [] rfl,
   (C2_container_round_trip.2.1 env0 env0_lossless ("B", none) [.num 2, .num 1] 6 []
     (by decide) rfl).1,
   (C2_container_round_trip.2.2 env0 env0_lossless ("B", none) ("B", none)
     [(.num 1, .num 2), (.num 0, .num 3)] 8 [] (by decide) rfl).1⟩

/-- In a pair list with duplicate-free keys, equal keys mean equal entries. -/
theorem eq_of_fst_eq_of_nodup :
    ∀ {l : List (Scalar × Scalar)}, (l.map Prod.fst).Nodup →
      ∀ {p q : Scalar × Scalar}, p ∈ l → q ∈ l → p.1 = q.1 → p = q := by
  intro l
  induction l with
  | nil => intro _ p q hp; cases hp
  | cons a t ih =>
    intro hnd p q hp hq he
    simp only [List.map_cons, List.nodup_cons] at hnd
    rcases List.mem_cons.mp hp with hp1 | hp1 <;> rcases List.mem_cons.mp hq with hq1 | hq1
    · rw [hp1, hq1]
    · exfalso
      apply hnd.1
      subst hp1
      rw [he]
      exact List.mem_map_of_mem Prod.fst hq1
    · exfalso
      apply hnd.1
      subst hq1
      rw [← he]
      exact List.mem_map_of_mem Prod.fst hp1
    · exact ih hnd.2 hp1 hq1 he

/-- A pair that compares below another has its key comparing below. -/
theorem pairLe_fst {p q : Scalar × Scalar} (h : pairLe p q = true) :
    scalLe p.1 q.1 = true := by
  unfold pairLe at h
  by_cases h1 : scalLe p.1 q.1 = true
  · exact h1
  · rw [if_neg h1] at h
    cases h

/-- C3: encoding the same set or the same map twice, even from collections
built in different insertion orders (modelled as permuted iteration orders),
produces byte-identical output, because members are written in ascending
sorted order and map entries in ascending sorted order of key. -/
theorem C3_canonical_order_determinism :
    (∀ (env : CodecEnv) (mt : ItemType) (xs1 xs2 : List Scalar), List.Perm xs1 xs2 →
      write_set env (.vset xs1) mt = write_set env (.vset xs2) mt)
    ∧
    (∀ (env : CodecEnv) (kt vt : ItemType) (al1 al2 : List (Scalar × Scalar)),
      List.Perm al1 al2 → (al1.map Prod.fst).Nodup →
      write_map env (.vmap al1) kt vt = write_map env (.vmap al2) kt vt) := by
  constructor
  · intro env mt xs1 xs2 hperm
    have hsort : pySorted scalLe xs1 = pySorted scalLe xs2 := by
      apply sorted_eq_of_perm
        ((pySorted_perm scalLe xs1).trans (hperm.trans (pySorted_perm scalLe xs2).symm))
        (pySorted_pairwise scalLe_total scalLe_trans xs1)
        (pySorted_pairwise scalLe_total scalLe_trans xs2)
      intro a _ b _ hab hba
      exact scalLe_antisymm a b hab hba
    have hw1 : write_set env (.vset xs1) mt
        = wseq (write_number ((xs1.length : Nat) : Int) LONG_TYPE)
            (write_scalar_list env mt (pySorted scalLe xs1)) := rfl
    have hw2 : write_set env (.vset xs2) mt
        = wseq (write_number ((xs2.length : Nat) : Int) LONG_TYPE)
            (write_scalar_list env mt (pySorted scalLe xs2)) := rfl
    rw [hw1, hw2, hperm.length_eq, hsort]
  · intro env kt vt al1 al2 hperm hnd
    have hnds : ((pySorted pairLe al1).map Prod.fst).Nodup :=
      (((pySorted_perm pairLe al1).map Prod.fst).nodup_iff).mpr hnd
    have hsort : pySorted pairLe al1 = pySorted pairLe al2 := by
      apply sorted_eq_of_perm
        ((pySorted_perm pairLe al1).trans (hperm.trans (pySorted_perm pairLe al2).symm))
        (pySorted_pairwise pairLe_total pairLe_trans al1)
        (pySorted_pairwise pairLe_total pairLe_trans al2)
      intro p hp q hq hpq hqp
      have hk : p.1 = q.1 := scalLe_antisymm _ _ (pairLe_fst hpq) (pairLe_fst hqp)
      exact eq_of_fst_eq_of_nodup hnds hp hq hk
    have hw1 : write_map env (.vmap al1) kt vt
        = wseq (write_number ((al1.length : Nat) : Int) LONG_TYPE)
            (write_pair_list env kt vt (pySorted pairLe al1)) := rfl
    have hw2 : write_map env (.vmap al2) kt vt
        = wseq (write_number ((al2.length : Nat) : Int) LONG_TYPE)
            (write_pair_list env kt vt (pySorted pairLe al2)) := rfl
    rw [hw1, hw2, hperm.length_eq, hsort]

/-- Witness for C3: two insertion orders of a two-member set and of a
two-entry map give identical write results. -/
theorem C3_canonical_order_determinism_witness :
    write_set env0 (.vset [.num 1, .num 2]) ("B", none)
      = write_set env0 (.vset [.num 2, .num 1]) ("B", none)
    ∧ write_map env0 (.vmap [(.num 1, .num 2), (.num 0, .num 3)]) ("B", none) ("B", none)
      = write_map env0 (.vmap [(.num 0, .num 3), (.num 1, .num 2)]) ("B", none) ("B", none) :=
  ⟨C3_canonical_order_determinism.1 env0 ("B", none) [.num 1, .num 2] [.num 2, .num 1]
      (by decide),
   C3_canonical_order_determinism.2 env0 ("B", none) ("B", none)
      [(.num 1, .num 2), (.num 0, .num 3)] [(.num 0, .num 3), (.num 1, .num 2)]
      (by decide) (by decide)⟩

/-- C4 counterexample: the claim that 'l'/'L' share the byte width of the
wide length prefix (LONG_TYPE, format 'I') is false on this code: the long
formats pack on 8 bytes while the LONG_TYPE prefix format packs on 4. -/
theorem C4_counterexample :
    NUMBER_SIZES "l" = 8 ∧ NUMBER_SIZES "L" = 8 ∧ NUMBER_SIZES LONG_TYPE.1 = 4 ∧
    (write_number 0 ("l", none)).out.length = 8 ∧
    (write_number 0 LONG_TYPE).out.length = 4 ∧
    (write_number 0 ("l", none)).out.length ≠ (write_number 0 LONG_TYPE).out.length := by
  refine ⟨rfl, rfl, rfl, by decide, by decide, by decide⟩

/-- C4 amended: the signed and unsigned long tags 'l' and 'L' are encoded on
a fixed 8-byte width, twice (not equal to) the 4-byte width of the
LONG_TYPE format 'I' used for wide length prefixes and container counts. -/
theorem C4_long_tag_widths (v : Int) :
    (∀ bs, struct_pack "l" v = .ok bs → bs.length = 8)
    ∧ (∀ bs, struct_pack "L" v = .ok bs → bs.length = 8)
    ∧ (∀ bs, struct_pack LONG_TYPE.1 v = .ok bs → bs.length = 4)
    ∧ NUMBER_SIZES "l" = 2 * NUMBER_SIZES LONG_TYPE.1 := by
  refine ⟨?_, ?_, ?_, rfl⟩ <;>
    · intro bs h
      rw [struct_pack_length h]
      rfl

/-- Witness for C4's amended claim at value 42. -/
theorem C4_long_tag_widths_witness :
    (natToLE 8 42).length = 8 ∧ (natToLE 4 42).length = 4 :=
  ⟨(C4_long_tag_widths 42).1 (natToLE 8 42) (by decide),
   (C4_long_tag_widths 42).2.2.1 (natToLE 4 42) (by decide)⟩

/-- C5: for the short-form tags, a payload of exactly 255 post-encoding bytes
is written successfully (returning the 1-byte prefix plus 255 payload bytes),
while a payload of 256 or more bytes fails with the length-overflow error;
only the encoded byte length matters, never the character count of the
text. -/
theorem C5_short_form_boundary :
    (∀ (env : CodecEnv) (e : Option String) (cs bs : List Nat),
      encode_string env cs e = .ok bs → bs.length = 255 →
      (write_string env cs ("sstr", e)).res = .ok 256)
    ∧ (∀ (env : CodecEnv) (e : Option String) (cs bs : List Nat),
      encode_string env cs e = .ok bs → 256 ≤ bs.length →
      write_string env cs ("sstr", e) = wErr .lengthOverflow)
    ∧ (∀ bs : List Nat, bs.length = 255 → (write_bytes bs ("sbyt", none)).res = .ok 256)
    ∧ (∀ bs : List Nat, 256 ≤ bs.length →
      write_bytes bs ("sbyt", none) = wErr .lengthOverflow) := by
  refine ⟨?_, ?_, ?_, ?_⟩
  · intro env e cs bs he hlen
    have h := write_string_short_ok he (by omega)
    rw [h, hlen]
  · intro env e cs bs he hlen
    exact write_string_overflow he (by omega)
  · intro bs hlen
    have h := write_bytes_short_ok (show bs.length ≤ 255 by omega)
    rw [h, hlen]
  · intro bs hlen
    exact write_bytes_overflow (by omega)

/-- Witness for C5: 255- and 256-byte payloads under the identity codec. -/
theorem C5_short_form_boundary_witness :
    (write_string env0 (List.replicate 255 7) ("sstr", none)).res = .ok 256
    ∧ write_string env0 (List.replicate 256 7) ("sstr", none) = wErr .lengthOverflow
    ∧ (write_bytes (List.replicate 255 7) ("sbyt", none)).res = .ok 256
    ∧ write_bytes (List.replicate 256 7) ("sbyt", none) = wErr .lengthOverflow :=
  ⟨C5_short_form_boundary.1 env0 none (List.replicate 255 7) (List.replicate 255 7) rfl
      (by rw [List.length_replicate]),
   C5_short_form_boundary.2.1 env0 none (List.replicate 256 7) (List.replicate 256 7) rfl
      (by rw [List.length_replicate]),
   C5_short_form_boundary.2.2.1 (List.replicate 255 7) (by rw [List.length_replicate]),
   C5_short_form_boundary.2.2.2 (List.replicate 256 7) (by rw [List.length_replicate])⟩

/-- C6: a byte stream encoding a map in which a key repeats (a declared
count, then well-formed key/value encodings whose key list has a duplicate)
makes read_map fail with the duplicate-key error. -/
theorem C6_duplicate_key_rejection (env : CodecEnv) (henv : losslessEnv env)
    (kt vt : ItemType) (ps : List (Scalar × Scalar)) (n m : Nat) (rest : List Nat)
    (hc : (write_number ((ps.length : Nat) : Int) LONG_TYPE).res = .ok m)
    (h : (write_pair_list env kt vt ps).res = .ok n)
    (hdup : ¬ (ps.map Prod.fst).Nodup) :
    read_map env kt vt ((write_number ((ps.length : Nat) : Int) LONG_TYPE).out
      ++ ((write_pair_list env kt vt ps).out ++ rest)) = .error .duplicateKey := by
  refine read_map_of_parts_err (read_write_number _ hc) ?_
  rw [Int.toNat_natCast]
  exact read_map_list_dup henv _ [] h (by simp) (by simpa using hdup)

/-- Witness for C6: a two-entry 'map:B:B' stream with the key 7 twice. -/
theorem C6_duplicate_key_rejection_witness :
    read_map env0 ("B", none) ("B", none)
      ((write_number ((2 : Nat) : Int) LONG_TYPE).out
        ++ ((write_pair_list env0 ("B", none) ("B", none)
              [(.num 7, .num 1), (.num 7, .num 2)]).out ++ []))
      = .error .duplicateKey :=
  C6_duplicate_key_rejection env0 env0_lossless ("B", none) ("B", none)
    [(.num 7, .num 1), (.num 7, .num 2)] 4 4 [] rfl rfl (by decide)

/-- C7: reading a set never raises on repeated members: a stream with a
declared count followed by that many well-formed member encodings (with
duplicates allowed) reads successfully and the duplicates collapse, the
result being membership-equal to the written members — in contrast with
read_map, which rejects duplicate keys. -/
theorem C7_set_read_collapses_duplicates (env : CodecEnv) (henv : losslessEnv env)
    (mt : ItemType) (ms : List Scalar) (n m : Nat) (rest : List Nat)
    (hc : (write_number ((ms.length : Nat) : Int) LONG_TYPE).res = .ok m)
    (h : (write_scalar_list env mt ms).res = .ok n) :
    read_set env mt ((write_number ((ms.length : Nat) : Int) LONG_TYPE).out
      ++ ((write_scalar_list env mt ms).out ++ rest))
      = .ok (.vset (ms.foldl set_insert []), rest)
    ∧ ∀ v : Scalar, v ∈ ms.foldl set_insert [] ↔ v ∈ ms := by
  constructor
  · refine read_set_of_parts (read_write_number _ hc) ?_
    rw [Int.toNat_natCast]
    exact read_write_set_list henv _ [] h
  · intro v
    rw [mem_foldl_set_insert]
    simp

/-- Witness for C7: a three-member 'set:B' stream with the member 1 twice
reads back as the two-member set. -/
theorem C7_set_read_collapses_duplicates_witness :
    read_set env0 ("B", none)
      ((write_number ((3 : Nat) : Int) LONG_TYPE).out
        ++ ((write_scalar_list env0 ("B", none) [.num 1, .num 1, .num 2]).out ++ []))
      = .ok (.vset ([.num 1, .num 1, .num 2].foldl set_insert []), []) :=
  (C7_set_read_collapses_duplicates env0 env0_lossless ("B", none)
    [.num 1, .num 1, .num 2] 3 4 [] rfl rfl).1

/-- C10: the short-form length check happens before any stream write: when an
'sstr' or 'sbyt' payload exceeds 255 encoded bytes, the writer's result
carries the length-overflow error with an empty emitted-bytes list — nothing
reached the underlying stream. -/
theorem C10_overflow_emits_nothing :
    (∀ (env : CodecEnv) (e : Option String) (cs bs : List Nat),
      encode_string env cs e = .ok bs → 255 < bs.length →
      write_string env cs ("sstr", e) = ⟨[], .error .lengthOverflow⟩)
    ∧ (∀ bs : List Nat, 255 < bs.length →
      write_bytes bs ("sbyt", none) = ⟨[], .error .lengthOverflow⟩) := by
  constructor
  · intro env e cs bs he hlen
    exact write_string_overflow he hlen
  · intro bs hlen
    exact write_bytes_overflow hlen

/-- Witness for C10: 256-byte payloads emit nothing and raise. -/
theorem C10_overflow_emits_nothing_witness :
    write_string env0 (List.replicate 256 7) ("sstr", none)
      = ⟨[], .error .lengthOverflow⟩
    ∧ write_bytes (List.replicate 256 7) ("sbyt", none)
      = ⟨[], .error .lengthOverflow⟩ :=
  ⟨C10_overflow_emits_nothing.1 env0 none (List.replicate 256 7) (List.replicate 256 7) rfl
      (by rw [List.length_replicate]; omega),
   C10_overflow_emits_nothing.2 (List.replicate 256 7)
      (by rw [List.length_replicate]; omega)⟩

end BinaryIo
